import Mathlib

/-!
Shallow embedding of the FocusFramework state machine
(`FocusManager.ts`, `FocusState.ts`, `UILayerManager.ts`, `FocusEventBus.ts`).

Asynchronous hooks are modelled by the ordered list of atomic user hooks a
composed closure runs; a transition (which the engine executes sequentially,
interleaving being a caller responsibility per the framework's concurrency
model) is a pure function on an engine state that also records an event trace.
"Hook X completes before hook Y begins" is trace order.  User callbacks that
can throw are modelled as `Except` values supplied by an environment function.
-/

namespace Focus

/-- Association-list lookup keyed by name (models `Map.get`). -/
def lookupA {α : Type} : List (String × α) → String → Option α
  | [], _ => none
  | (k, v) :: rest, n => if k = n then some v else lookupA rest n

/-- Association-list insert-or-overwrite (models `Map.set`). -/
def putA {α : Type} : List (String × α) → String → α → List (String × α)
  | [], k, v => [(k, v)]
  | (k0, v0) :: rest, k, v =>
    if k0 = k then (k, v) :: rest else (k0, v0) :: putA rest k v

/-- Add a name to a set-like list if absent (models `Set.add`). -/
def addUnique (l : List String) (n : String) : List String :=
  if n ∈ l then l else l ++ [n]

/-- Add several names to a set-like list. -/
def addAllUnique (l : List String) (ns : List String) : List String :=
  ns.foldl addUnique l

/-- JS `[...new Set([...a, ...b])]`: concatenation keeping first occurrences. -/
def dedupUnion (a b : List String) : List String :=
  addAllUnique (addAllUnique [] a) b

/-- Shallow embedding of `FocusStateConfig` (FocusState.ts).  The composed
`onEnter`/`onExit` closures are represented by the ordered list of atomic user
hooks they run; `onEnterHookCount`/`onExitHookCount` are the counters that
`build()` sets and `mergeConfigs` sums.  Event/key listeners carry the
declaration data (event name / event type and key) plus a callback id. -/
structure FocusStateConfig where
  extendsName : Option String := none
  uiLayers : List (String × Int) := []
  uiVisible : Option (List String) := none
  uiPreserveOnExit : List String := []
  uiCleanupOnExit : List String := []
  transitionEffectName : Option String := none
  transitionDuration : Option Nat := none
  managedPrefabs : List String := []
  onEnterHookCount : Nat := 0
  onExitHookCount : Nat := 0
  eventListeners : List (String × Nat) := []
  keyListeners : List (String × String × Nat) := []
  onEnter : Option (List Nat) := none
  onExit : Option (List Nat) := none
deriving Repr, DecidableEq

/-- Hook chaining of `mergeConfigs`: when either side has a composed hook the
merged hook awaits the base's hook to completion, then the child's. -/
def chainHooks (base child : Option (List Nat)) : Option (List Nat) :=
  match base, child with
  | none, none => none
  | b, c => some (b.getD [] ++ c.getD [])

/-- Embeds `FocusManager.mergeConfigs` (FocusManager.ts:295–334).  The JS spread
`{ ...base, ...child }` makes every child field win — built configs always
carry all keys, possibly with value `undefined` — after which ui, prefab,
hook-count and hook fields are merged explicitly.  Note that the child's
`extends` reference survives into the merged config. -/
def mergeConfigs (base child : FocusStateConfig) : FocusStateConfig :=
  { extendsName := child.extendsName
    uiLayers :=
      base.uiLayers.filter (fun p => (lookupA child.uiLayers p.1).isNone) ++ child.uiLayers
    uiVisible :=
      match child.uiVisible with
      | some v => some v
      | none => base.uiVisible
    uiPreserveOnExit := dedupUnion base.uiPreserveOnExit child.uiPreserveOnExit
    uiCleanupOnExit := dedupUnion base.uiCleanupOnExit child.uiCleanupOnExit
    transitionEffectName := child.transitionEffectName
    transitionDuration := child.transitionDuration
    managedPrefabs := dedupUnion base.managedPrefabs child.managedPrefabs
    onEnterHookCount := base.onEnterHookCount + child.onEnterHookCount
    onExitHookCount := base.onExitHookCount + child.onExitHookCount
    eventListeners := child.eventListeners
    keyListeners := child.keyListeners
    onEnter := chainHooks base.onEnter child.onEnter
    onExit := chainHooks base.onExit child.onExit }

/-- Embeds `FocusManager.resolveInheritance` (FocusManager.ts:336–357).  `fuel`
bounds the recursion; callers pass `states.length + 1`, which always exceeds
the real recursion depth because every recursive step consumes one registered
parent name that is not yet in `visited`. -/
def resolveInheritance (fuel : Nat) (states : List (String × FocusStateConfig))
    (config : FocusStateConfig) (visited : List String) : FocusStateConfig :=
  match fuel with
  | 0 => config
  | fuel + 1 =>
    match config.extendsName with
    | none => config
    | some parentName =>
      if parentName ∈ visited then { config with extendsName := none }
      else
        match lookupA states parentName with
        | none => { config with extendsName := none }
        | some parentConfig =>
          mergeConfigs (resolveInheritance fuel states parentConfig (parentName :: visited))
            config

/-- The observable events of one engine run: atomic exit/enter hooks (with the
state they belong to and, for exits, the destination passed to the hook),
transition-effect phases, state-change notifications, and the layer side
effects of `_exitState`. -/
inductive Ev where
  | exitHook (h : Nat) (state dest : String)
  | enterHook (h : Nat) (state : String)
  | effectExit (eff : String) (fromState : Option String) (toState : String) (dur : Nat)
  | effectEnter (eff : String) (cur : String) (prev : Option String) (dur : Nat)
  | stateChanged (next : String) (prev : Option String)
  | layerResetHide (l : String)
  | layerClearListeners (l : String)
deriving Repr, DecidableEq

/-- The `FocusManager` instance state: registered (resolved) configs, the set
of layer names mentioned by any registered state, the state stack (bottom
first, active state last), the layer visibility map of the `UILayerManager`,
the registered transition-effect names, which state's scoped listeners are
active, and the event trace. -/
structure EngineState where
  states : List (String × FocusStateConfig) := []
  managedLayers : List String := []
  stateStack : List String := []
  layers : List (String × Bool) := []
  effects : List String := []
  activeListeners : Option String := none
  trace : List Ev := []
deriving Repr, DecidableEq

/-- Embeds `FocusManager.register` (FocusManager.ts:113–139): resolve inheritance,
auto-create layers declared in `ui.layers` (created layers start visible),
store the final config under the state name, and remember every layer name
mentioned in `visible` / `preserveOnExit` / `cleanupOnExit`. -/
def registerState (st : EngineState) (name : String) (config : FocusStateConfig) :
    EngineState :=
  let finalConfig := resolveInheritance (st.states.length + 1) st.states config []
  let layers := finalConfig.uiLayers.foldl
    (fun ls p => if (lookupA ls p.1).isSome then ls else ls ++ [(p.1, true)]) st.layers
  { st with
    states := putA st.states name finalConfig
    layers := layers
    managedLayers :=
      addAllUnique
        (addAllUnique (addAllUnique st.managedLayers (finalConfig.uiVisible.getD []))
          finalConfig.uiPreserveOnExit)
        finalConfig.uiCleanupOnExit }

/-- Embeds `FocusManager.registerTransitionEffect` (the effects registry). -/
def registerEffect (st : EngineState) (name : String) : EngineState :=
  { st with effects := addUnique st.effects name }

/-- Embeds `FocusManager.current`: top of the stack. -/
def currentOf (st : EngineState) : Option String :=
  st.stateStack.getLast?

/-- Embeds `FocusManager.getTransitionEffect` (FocusManager.ts:252–260): an
undeclared name yields no effect; a declared but unregistered name logs a
warning and yields no effect. -/
def getTransitionEffect (effects : List String) : Option String → Option String
  | none => none
  | some n => if n ∈ effects then some n else none

/-- Embeds `layer.reset().hide()` on exit (FocusManager.ts:384): hide the layer if it
exists and record the reset; content teardown is inside the layer model. -/
def hideResetLayer (st : EngineState) (l : String) : EngineState :=
  match lookupA st.layers l with
  | none => st
  | some _ =>
    { st with layers := putA st.layers l false, trace := st.trace ++ [Ev.layerResetHide l] }

/-- Embeds `layer.clearListeners()` for `cleanupOnExit` layers (FocusManager.ts:392). -/
def cleanupLayerListeners (st : EngineState) (l : String) : EngineState :=
  match lookupA st.layers l with
  | none => st
  | some _ => { st with trace := st.trace ++ [Ev.layerClearListeners l] }

/-- Embeds `layer.show()` / `layer.hide()` applied to an existing layer. -/
def setLayerVisible (st : EngineState) (l : String) (b : Bool) : EngineState :=
  match lookupA st.layers l with
  | none => st
  | some _ => { st with layers := putA st.layers l b }

/-- The exit-hook events `_exitState` produces for one state: every atomic
hook of the composed `onExit`, invoked with the destination name. -/
def exitHookEvts (states : List (String × FocusStateConfig)) (s dest : String) : List Ev :=
  match lookupA states s with
  | none => []
  | some cfg => (cfg.onExit.getD []).map (fun h => Ev.exitHook h s dest)

/-- Embeds `FocusManager._exitState` (FocusManager.ts:369–398): await the composed
exit hook with the destination name, then reset+hide every visible layer not
marked preserved, then clear listeners of every `cleanupOnExit` layer. -/
def exitStateM (st : EngineState) (s dest : String) : EngineState :=
  match lookupA st.states s with
  | none => st
  | some cfg =>
    let st1 := { st with
      trace := st.trace ++ (cfg.onExit.getD []).map (fun h => Ev.exitHook h s dest) }
    let st2 := (cfg.uiVisible.getD []).foldl
      (fun acc l => if l ∈ cfg.uiPreserveOnExit then acc else hideResetLayer acc l) st1
    cfg.uiCleanupOnExit.foldl cleanupLayerListeners st2

/-- Embeds `FocusManager._updateUiVisibility` (FocusManager.ts:400–419): with an
active state, show each existing managed layer iff it is in the active
state's `visible` set; with no active state, hide all managed layers. -/
def updateUiVisibility (st : EngineState) : EngineState :=
  match currentOf st with
  | none => st.managedLayers.foldl (fun acc l => setLayerVisible acc l false) st
  | some top =>
    match lookupA st.states top with
    | none => st
    | some cfg =>
      st.managedLayers.foldl
        (fun acc l => setLayerVisible acc l (decide (l ∈ cfg.uiVisible.getD []))) st

/-- The exit loop of `switch` (FocusManager.ts:520–524): exit every stacked
state from top to bottom, each with the final destination, then the stack is
empty.  `_exitState` never touches the stack, so the peek/exit/pop loop is a
fold over the reversed stack followed by clearing it. -/
def exitAll (st : EngineState) (dest : String) : EngineState :=
  let st1 := st.stateStack.reverse.foldl (fun acc s => exitStateM acc s dest) st
  { st1 with stateStack := [] }

/-- Append events to the trace. -/
def appendTrace (st : EngineState) (evs : List Ev) : EngineState :=
  { st with trace := st.trace ++ evs }

/-- Events of the exit phase of a (possibly absent) transition effect. -/
def effectExitEvts (transition : Option String) (fromState : Option String)
    (toState : String) (dur : Nat) : List Ev :=
  match transition with
  | none => []
  | some e => [Ev.effectExit e fromState toState dur]

/-- Events of the enter phase of a (possibly absent) transition effect. -/
def effectEnterEvts (transition : Option String) (cur : String) (prev : Option String)
    (dur : Nat) : List Ev :=
  match transition with
  | none => []
  | some e => [Ev.effectEnter e cur prev dur]

/-- The body of `switch` after its guards (FocusManager.ts:505–537):
deactivate scoped listeners, run the target's effect exit phase, exit every
stacked state (destination = target), make the target the sole stack entry,
emit the change, activate the target's listeners, sweep layer visibility, run
the target's composed enter hook, run the effect enter phase. -/
def switchBody (st : EngineState) (name : String) (cfg : FocusStateConfig) : EngineState :=
  let prev := currentOf st
  let transition := getTransitionEffect st.effects cfg.transitionEffectName
  let dur := cfg.transitionDuration.getD 300
  let st1 := { st with activeListeners := none }
  let st2 := appendTrace st1 (effectExitEvts transition prev name dur)
  let st3 := exitAll st2 name
  let st4 := { st3 with
    stateStack := [name]
    trace := st3.trace ++ [Ev.stateChanged name prev]
    activeListeners := some name }
  let st5 := updateUiVisibility st4
  let st6 := appendTrace st5 ((cfg.onEnter.getD []).map (fun h => Ev.enterHook h name))
  appendTrace st6 (effectEnterEvts transition name prev dur)

/-- Embeds `FocusManager.switch` (FocusManager.ts:498–538), sequentialised.  No-op
when the target is already the sole stack entry or is unregistered. -/
def switchM (st : EngineState) (name : String) : EngineState :=
  if currentOf st = some name ∧ st.stateStack.length = 1 then st
  else
    match lookupA st.states name with
    | none => st
    | some cfg => switchBody st name cfg

/-- The body of `push` after its guards (FocusManager.ts:553–579): the states
below are not exited, only suspended. -/
def pushBody (st : EngineState) (name : String) (cfg : FocusStateConfig) : EngineState :=
  let prev := currentOf st
  let transition := getTransitionEffect st.effects cfg.transitionEffectName
  let dur := cfg.transitionDuration.getD 300
  let st1 := { st with activeListeners := none }
  let st2 := appendTrace st1 (effectExitEvts transition prev name dur)
  let st3 := { st2 with
    stateStack := st2.stateStack ++ [name]
    trace := st2.trace ++ [Ev.stateChanged name prev]
    activeListeners := some name }
  let st4 := updateUiVisibility st3
  let st5 := appendTrace st4 ((cfg.onEnter.getD []).map (fun h => Ev.enterHook h name))
  appendTrace st5 (effectEnterEvts transition name prev dur)

/-- Embeds `FocusManager.push` (FocusManager.ts:546–580): no-op when the target is
already the active top or is unregistered. -/
def pushM (st : EngineState) (name : String) : EngineState :=
  if currentOf st = some name then st
  else
    match lookupA st.states name with
    | none => st
    | some cfg => pushBody st name cfg

/-- The body of `pop` after its guards (FocusManager.ts:592–622): the
transition effect and duration are those of the state being removed, its exit
phase runs before the popped state's exit hook, the popped state is exited
with the resumed state as destination, the stack shrinks by one, the resumed
state's listeners are reactivated and visibility swept, and the effect's
enter phase runs last.  The resumed state is not re-entered. -/
def popBody (st : EngineState) (toPop resume : String) (cfgPop : FocusStateConfig) :
    EngineState :=
  let transition := getTransitionEffect st.effects cfgPop.transitionEffectName
  let dur := cfgPop.transitionDuration.getD 300
  let st1 := { st with activeListeners := none }
  let st2 := appendTrace st1 (effectExitEvts transition (some toPop) resume dur)
  let st3 := exitStateM st2 toPop resume
  let st4 := { st3 with
    stateStack := st3.stateStack.dropLast
    trace := st3.trace ++ [Ev.stateChanged resume (some toPop)]
    activeListeners := some resume }
  let st5 := updateUiVisibility st4
  appendTrace st5 (effectEnterEvts transition resume (some toPop) dur)

/-- Embeds `FocusManager.pop` (FocusManager.ts:586–623): refused (logged, no-op) at
stack depth ≤ 1. -/
def popM (st : EngineState) : EngineState :=
  if st.stateStack.length ≤ 1 then st
  else
    match st.stateStack.reverse with
    | toPop :: resume :: _ =>
      (match lookupA st.states toPop with
       | none => st
       | some cfgPop => popBody st toPop resume cfgPop)
    | _ => st

/-- Event classifiers used to project traces. -/
def isExitEv : Ev → Bool
  | Ev.exitHook .. => true
  | _ => false

def isEnterEv : Ev → Bool
  | Ev.enterHook .. => true
  | _ => false

def isEffectEv : Ev → Bool
  | Ev.effectExit .. => true
  | Ev.effectEnter .. => true
  | _ => false

def isChangedEv : Ev → Bool
  | Ev.stateChanged .. => true
  | _ => false

/-- Effect phases, exit hooks and state-change notifications: the events whose
relative order the pop-transition claim is about. -/
def isMainEv (e : Ev) : Bool :=
  isEffectEv e || isExitEv e || isChangedEv e

/-- The `switch`/`push`/`pop` calls a caller can issue on a fixed set of
registered states. -/
inductive StackOp where
  | push (name : String)
  | pop
deriving Repr, DecidableEq

/-- Run a sequence of stack operations. -/
def runOps (st : EngineState) : List StackOp → EngineState
  | [] => st
  | StackOp.push n :: rest => runOps (pushM st n) rest
  | StackOp.pop :: rest => runOps (popM st) rest

/-- A sequence is valid when every push targets a registered state different
from the current top and every pop happens at depth ≥ 2. -/
def ValidSeq (st : EngineState) : List StackOp → Prop
  | [] => True
  | StackOp.push n :: rest =>
    (lookupA st.states n).isSome ∧ currentOf st ≠ some n ∧ ValidSeq (pushM st n) rest
  | StackOp.pop :: rest => 2 ≤ st.stateStack.length ∧ ValidSeq (popM st) rest

def countPushes : List StackOp → Nat
  | [] => 0
  | StackOp.push _ :: rest => countPushes rest + 1
  | StackOp.pop :: rest => countPushes rest

def countPops : List StackOp → Nat
  | [] => 0
  | StackOp.push _ :: rest => countPops rest
  | StackOp.pop :: rest => countPops rest + 1

/-- Every stacked state is registered — the engine only ever pushes
registered names. -/
def StackRegistered (st : EngineState) : Prop :=
  ∀ s ∈ st.stateStack, (lookupA st.states s).isSome

/-! ### UILayer: delegated listeners, cleanup tasks, content replacement -/

/-- One `(eventType, selector, callback)` delegation (UILayerManager.ts:4–8);
callbacks are compared by identity, modelled as an id. -/
structure DelegatedL where
  eventType : String
  selector : String
  callback : Nat
deriving Repr, DecidableEq

/-- A `UILayer`'s listener-relevant state: abstract DOM children of the root
element, the delegated pairs, the master-handler map keys, the multiset of
`addEventListener` registrations actually present on the root element, and
the registered cleanup tasks. -/
structure UILayerM where
  domChildren : List Nat := []
  delegated : List DelegatedL := []
  masterHandlers : List String := []
  elementListeners : List String := []
  cleanupTasks : List Nat := []
deriving Repr, DecidableEq

/-- Embeds `UILayer.on` (UILayerManager.ts:236–258): install a master handler for the
event type if none exists, then record the delegation. -/
def layerOn (l : UILayerM) (eventType selector : String) (cb : Nat) : UILayerM :=
  let l1 :=
    if eventType ∈ l.masterHandlers then l
    else
      { l with
        masterHandlers := l.masterHandlers ++ [eventType]
        elementListeners := l.elementListeners ++ [eventType] }
  { l1 with delegated := l1.delegated ++ [⟨eventType, selector, cb⟩] }

/-- Embeds `UILayer.off` (UILayerManager.ts:266–282): drop every delegation equal to
the triple; if none remain for the event type, remove the master handler. -/
def layerOff (l : UILayerM) (eventType selector : String) (cb : Nat) : UILayerM :=
  let delegated := l.delegated.filter
    (fun d => decide (¬(d.eventType = eventType ∧ d.selector = selector ∧ d.callback = cb)))
  let l1 := { l with delegated := delegated }
  if delegated.any (fun d => d.eventType == eventType) then l1
  else if eventType ∈ l1.masterHandlers then
    { l1 with
      masterHandlers := l1.masterHandlers.erase eventType
      elementListeners := l1.elementListeners.erase eventType }
  else l1

/-- One run of the master handler (UILayerManager.ts:238–251): walk the
delegations whose event type matches and whose selector has a matching,
contained target (`target` abstracts `closest` + `contains`), invoking each
callback. -/
def masterHandlerRun (l : UILayerM) (eventType : String) (target : String → Bool) :
    List Nat :=
  (l.delegated.filter (fun d => d.eventType == eventType && target d.selector)).map
    (fun d => d.callback)

/-- Delivery of one DOM event: each listener registration of that type on the
root element runs the master handler once. -/
def dispatchL (l : UILayerM) (eventType : String) (target : String → Bool) : List Nat :=
  ((l.elementListeners.filter (fun t => t == eventType)).map
    (fun _ => masterHandlerRun l eventType target)).flatten

/-- The on/off call stream of a layer's clients. -/
inductive LOp where
  | on (eventType selector : String) (cb : Nat)
  | off (eventType selector : String) (cb : Nat)
deriving Repr, DecidableEq

def applyLOps (ops : List LOp) (l : UILayerM) : UILayerM :=
  ops.foldl
    (fun acc op =>
      match op with
      | LOp.on t s cb => layerOn acc t s cb
      | LOp.off t s cb => layerOff acc t s cb) l

/-- Observable events of `clearListeners`/`html`. -/
inductive LayerEv where
  | taskRan (t : Nat)
  | taskErrorLogged (t : Nat)
  | masterRemoved (eventType : String)
  | contentReplaced (content : List Nat)
deriving Repr, DecidableEq

def isTaskRanEv : LayerEv → Bool
  | LayerEv.taskRan _ => true
  | _ => false

/-- The cleanup-task loop of `UILayer.clearListeners` (UILayerManager.ts:154–
161): each task runs inside try/catch; a throwing task is logged and the loop
continues, so the loop itself never propagates an exception. -/
def runCleanupTasks (env : Nat → Except String Unit) : List Nat → List LayerEv
  | [] => []
  | t :: rest =>
    [LayerEv.taskRan t] ++
      (match env t with
       | Except.ok _ => []
       | Except.error _ => [LayerEv.taskErrorLogged t]) ++
      runCleanupTasks env rest

/-- Embeds `UILayer.clearListeners` (UILayerManager.ts:152–172): run all cleanup
tasks, remove every master handler from the root element, clear the internal
tracking lists. -/
def clearListenersL (env : Nat → Except String Unit) (l : UILayerM) :
    UILayerM × List LayerEv :=
  ({ l with
      cleanupTasks := []
      delegated := []
      masterHandlers := []
      elementListeners := l.masterHandlers.foldl (fun el t => el.erase t) l.elementListeners },
    runCleanupTasks env l.cleanupTasks ++ l.masterHandlers.map LayerEv.masterRemoved)

/-- Embeds `UILayer.html` (UILayerManager.ts:72–76): clear listeners (running cleanup
tasks) first, then replace the element's content. -/
def htmlL (env : Nat → Except String Unit) (l : UILayerM) (content : List Nat) :
    UILayerM × List LayerEv :=
  let p := clearListenersL env l
  ({ p.1 with domChildren := content }, p.2 ++ [LayerEv.contentReplaced content])

/-! ### FocusEventBus and the state-scoped key-listener wrapper -/

inductive BusEv where
  | invoked (cb : Nat)
  | errorLogged (cb : Nat)
deriving Repr, DecidableEq

def isInvokedEv : BusEv → Bool
  | BusEv.invoked _ => true
  | _ => false

/-- Embeds `FocusEventBus.emit` (FocusEventBus.ts): iterate a snapshot of the handler
list; each handler runs in try/catch, a throwing handler is logged and the
remaining handlers of the same emission still run. -/
def emitBus (env : Nat → Except String Unit) : List Nat → List BusEv
  | [] => []
  | cb :: rest =>
    [BusEv.invoked cb] ++
      (match env cb with
       | Except.ok _ => []
       | Except.error _ => [BusEv.errorLogged cb]) ++
      emitBus env rest

/-- The key-listener wrapper installed on the document by
`FocusManager._activateStateKeyListeners` (FocusManager.ts:229–234): guard on
the owning state still being current and on the key, then call the user
callback with no try/catch — a thrown exception leaves the wrapper
unhandled. -/
def keyListenerHandler (current : Option String) (stateName listenerKey : String)
    (cb : Except String Unit) (evKey : String) : Except String Unit :=
  if current = some stateName ∧ evKey = listenerKey then cb else Except.ok ()

/-! ### Prefab instantiation with entry-version cancellation -/

/-- The world a state's prefab machinery acts on: the state's live entry
version (`FocusState._entryVersion`), the external 3-D scene (instance ids),
the state's `instantiatedPrefabs` list, and whether the composed enter hook
reached its final step of attaching delegated/container listeners. -/
structure PrefabWorld where
  entryVersion : Nat := 0
  scene : List Nat := []
  managed : List Nat := []
  listenersAttached : Bool := false
deriving Repr, DecidableEq

/-- The start of the composed exit hook built by `FocusState.build`
(FocusState.ts `build`): immediately bump the entry version, then the
`withPrefabs` exit hook destroys whatever is in the managed list. -/
def beginExit (w : PrefabWorld) : PrefabWorld :=
  { w with
    entryVersion := w.entryVersion + 1
    scene := w.scene.filter (fun i => decide (i ∉ w.managed))
    managed := [] }

/-- Iterates `k` exits beginning one after another. -/
def beginExits : Nat → PrefabWorld → PrefabWorld
  | 0, w => w
  | k + 1, w => beginExits k (beginExit w)

/-- The composed enter hook of a state built with `withPrefabs`
(FocusState.ts `withPrefabs` + `build`): capture the entry version, reset the
managed list, instantiate the prefabs (the awaited
`PrefabUtil.instantiateMultiple`, during which `exitsDuring` exits may begin),
then on resumption destroy the fresh instances and add none if the version
moved, otherwise adopt them; finally attach delegated/container listeners
only if the captured version still equals the live version. -/
def runEnterWithPrefabs (prefabs : List Nat) (exitsDuring : Nat) (w : PrefabWorld) :
    PrefabWorld :=
  let captured := w.entryVersion
  let w1 := { w with managed := [] }
  let w2 := { w1 with scene := w1.scene ++ prefabs }
  let w3 := beginExits exitsDuring w2
  let w4 :=
    if captured = w3.entryVersion then { w3 with managed := w3.managed ++ prefabs }
    else { w3 with scene := w3.scene.filter (fun i => decide (i ∉ prefabs)) }
  if captured = w4.entryVersion then { w4 with listenersAttached := true } else w4

/-! ### Fixtures and statement-level definitions -/

/-- Selectors on the engine trace that ignore the layer side-effect events. -/
def NonLayerSel (sel : Ev → Bool) : Prop :=
  ∀ l, sel (Ev.layerResetHide l) = false ∧ sel (Ev.layerClearListeners l) = false

/-- A raw built config with only hooks: the shape `build()` produces for a
state that declares `a` enter hooks (atoms `hs`) and `a2` exit hooks
(atoms `es`) and nothing else. -/
def hookOnlyConfig (ext : Option String) (a a2 : Nat) (hs es : List Nat) :
    FocusStateConfig :=
  { extendsName := ext
    onEnterHookCount := a
    onExitHookCount := a2
    onEnter := some hs
    onExit := some es }

/-- Registering the three-state chain A, B extends A, C extends B, in that
order, from a fresh manager. -/
def chainRegistered (a a2 b b2 c c2 : Nat) (hA eA hB eB hC eC : List Nat) : EngineState :=
  registerState
    (registerState
      (registerState {} "A" (hookOnlyConfig none a a2 hA eA))
      "B" (hookOnlyConfig (some "A") b b2 hB eB))
    "C" (hookOnlyConfig (some "B") c c2 hC eC)

/-- Concrete four-state fixture used to witness the switch theorems. -/
def stC3 : EngineState :=
  { states := [("A", { onExit := some [1] }), ("B", { onExit := some [2] }),
      ("C", { onExit := some [3] }), ("D", { onEnter := some [4] })]
    stateStack := ["A", "B", "C"] }

/-- Concrete two-state fixture whose top is the switch target. -/
def stC10 : EngineState :=
  { states := [("A", { onExit := some [1] }),
      ("T", { onExit := some [2], onEnter := some [3] })]
    stateStack := ["A", "T"] }

/-- Concrete fixture for the pop-effect theorem: the popped state `B` declares
effect `"fade"` (no duration), the resumed state `A` declares `"iris"`. -/
def stC8 : EngineState :=
  { states := [("A", { transitionEffectName := some "iris" }),
      ("B", { transitionEffectName := some "fade", onExit := some [7] })]
    stateStack := ["A", "B"]
    effects := ["fade", "iris"] }

/-- Three registered states and an empty stack, for the stack-invariant
witness. -/
def stC4 : EngineState :=
  { states := [("base", {}), ("x", {}), ("y", {})] }

/-- A registered `lobby` state with one visible layer `menu`, and a stack
whose (unregistered) current entry is swept away by the switch. -/
def stC6 : EngineState :=
  { registerState {} "lobby"
      { uiVisible := some ["menu"], uiLayers := [("menu", 0)], onEnter := some [6] } with
    stateStack := ["game"] }

/-- Two delegated `click` pairs, then removal of the first. -/
def c7Ops : List LOp :=
  [LOp.on "click" "#a" 1, LOp.on "click" "#b" 2, LOp.off "click" "#a" 1]

/-- Environment for the exception-handling witnesses: callback 0 throws,
every other callback succeeds. -/
def c2Env : Nat → Except String Unit :=
  fun t => if t = 0 then Except.error "boom" else Except.ok ()

/-- A layer with two delegated `click` pairs (one master handler installed)
and two cleanup tasks, as produced by `on`/`addCleanupTask`. -/
def c9Layer : UILayerM :=
  { (layerOn (layerOn {} "click" "#a" 1) "click" "#b" 2) with cleanupTasks := [0, 1] }

/-- The invariant linking a layer's element-listener registrations, its
master-handler map and its delegation list. -/
def LayerInv (l : UILayerM) : Prop :=
  l.elementListeners = l.masterHandlers ∧ l.masterHandlers.Nodup ∧
    ∀ t, t ∈ l.masterHandlers ↔ ∃ d ∈ l.delegated, d.eventType = t

/-! ### Basic lemmas -/

theorem lookupA_putA_self {α : Type} (l : List (String × α)) (k : String) (v : α) :
    lookupA (putA l k v) k = some v := by
  induction l with
  | nil => simp [putA, lookupA]
  | cons p rest ih =>
    obtain ⟨k0, v0⟩ := p
    by_cases h : k0 = k
    · simp [putA, h, lookupA]
    · simp [putA, h, lookupA, ih]

theorem lookupA_putA_other {α : Type} (l : List (String × α)) (k k1 : String) (v : α)
    (h : k ≠ k1) : lookupA (putA l k v) k1 = lookupA l k1 := by
  induction l with
  | nil => simp [putA, lookupA, h]
  | cons p rest ih =>
    obtain ⟨k0, v0⟩ := p
    by_cases h0 : k0 = k
    · simp [putA, h0, lookupA, h]
    · simp [putA, h0, lookupA, ih]

theorem foldl_preserves {σ α β : Type} (proj : σ → β) (f : σ → α → σ)
    (h : ∀ s a, proj (f s a) = proj s) (L : List α) (s : σ) :
    proj (L.foldl f s) = proj s := by
  induction L generalizing s with
  | nil => rfl
  | cons a L ih => rw [List.foldl_cons, ih, h]

/-! ### C1: inheritance resolution -/

/-- C1 counterexample.  Register A (1 enter + 1 exit hook), B extends A
(1 + 1), C extends B (1 + 1), in that order.  The claim says resolved C has
enter-hook count `1 + 1 + 1 = 3` and runs each ancestor's hooks exactly once;
the code stores resolved B with its `extends: "A"` reference intact, so
registering C re-resolves B against A and merges A's hooks a second time:
the count is 4 and A's enter hook (atom 0) runs twice. -/
theorem c1_counterexample :
    (lookupA (chainRegistered 1 1 1 1 1 1 [0] [10] [1] [11] [2] [12]).states "C").map
        (fun r => (r.onEnterHookCount, r.onExitHookCount, r.onEnter, r.onExit))
      = some (4, 4, some [0, 0, 1, 2], some [10, 10, 11, 12]) ∧
    ¬((lookupA (chainRegistered 1 1 1 1 1 1 [0] [10] [1] [11] [2] [12]).states "C").map
        (fun r => r.onEnterHookCount) = some 3) := by
  constructor
  · rfl
  · decide

/-- C1 amended.  For the chain A; B extends A; C extends B registered in
that order: resolved B sums the declared counts (`a + b`, `a2 + b2`) and its
composed hooks run A's hooks once, before B's.  Resolved C, however, counts
the root A twice (`a + (a + b) + c = 2a + b + c`) and its composed enter hook
runs A's atoms twice, then B's, then C's — because the stored resolved B
retains `extends: "A"` and is re-resolved (re-merging A) when C registers.
Parent hooks still always run before child hooks. -/
theorem c1_amended (a a2 b b2 c c2 : Nat) (hA eA hB eB hC eC : List Nat) :
    ((lookupA (chainRegistered a a2 b b2 c c2 hA eA hB eB hC eC).states "B").map
        (fun r => (r.onEnterHookCount, r.onExitHookCount, r.onEnter, r.onExit))
      = some (a + b, a2 + b2, some (hA ++ hB), some (eA ++ eB))) ∧
    ((lookupA (chainRegistered a a2 b b2 c c2 hA eA hB eB hC eC).states "C").map
        (fun r => (r.onEnterHookCount, r.onExitHookCount, r.onEnter, r.onExit))
      = some (a + (a + b) + c, a2 + (a2 + b2) + c2,
          some (hA ++ (hA ++ hB) ++ hC), some (eA ++ (eA ++ eB) ++ eC))) := by
  constructor
  · simp [chainRegistered, hookOnlyConfig, registerState, resolveInheritance,
      mergeConfigs, chainHooks, lookupA, putA]
  · simp [chainRegistered, hookOnlyConfig, registerState, resolveInheritance,
      mergeConfigs, chainHooks, lookupA, putA]

/-! ### Engine preservation lemmas -/

theorem hideResetLayer_states (st : EngineState) (l : String) :
    (hideResetLayer st l).states = st.states := by
  simp only [hideResetLayer]; split <;> rfl

theorem hideResetLayer_stack (st : EngineState) (l : String) :
    (hideResetLayer st l).stateStack = st.stateStack := by
  simp only [hideResetLayer]; split <;> rfl

theorem hideResetLayer_managed (st : EngineState) (l : String) :
    (hideResetLayer st l).managedLayers = st.managedLayers := by
  simp only [hideResetLayer]; split <;> rfl

theorem hideResetLayer_effects (st : EngineState) (l : String) :
    (hideResetLayer st l).effects = st.effects := by
  simp only [hideResetLayer]; split <;> rfl

theorem cleanupLayerListeners_states (st : EngineState) (l : String) :
    (cleanupLayerListeners st l).states = st.states := by
  simp only [cleanupLayerListeners]; split <;> rfl

theorem cleanupLayerListeners_stack (st : EngineState) (l : String) :
    (cleanupLayerListeners st l).stateStack = st.stateStack := by
  simp only [cleanupLayerListeners]; split <;> rfl

theorem cleanupLayerListeners_managed (st : EngineState) (l : String) :
    (cleanupLayerListeners st l).managedLayers = st.managedLayers := by
  simp only [cleanupLayerListeners]; split <;> rfl

theorem cleanupLayerListeners_effects (st : EngineState) (l : String) :
    (cleanupLayerListeners st l).effects = st.effects := by
  simp only [cleanupLayerListeners]; split <;> rfl

theorem setLayerVisible_states (st : EngineState) (l : String) (b : Bool) :
    (setLayerVisible st l b).states = st.states := by
  simp only [setLayerVisible]; split <;> rfl

theorem setLayerVisible_stack (st : EngineState) (l : String) (b : Bool) :
    (setLayerVisible st l b).stateStack = st.stateStack := by
  simp only [setLayerVisible]; split <;> rfl

theorem setLayerVisible_managed (st : EngineState) (l : String) (b : Bool) :
    (setLayerVisible st l b).managedLayers = st.managedLayers := by
  simp only [setLayerVisible]; split <;> rfl

theorem setLayerVisible_trace (st : EngineState) (l : String) (b : Bool) :
    (setLayerVisible st l b).trace = st.trace := by
  simp only [setLayerVisible]; split <;> rfl

theorem exitStateM_states (st : EngineState) (s dest : String) :
    (exitStateM st s dest).states = st.states := by
  simp only [exitStateM]
  split
  · rfl
  · rw [foldl_preserves EngineState.states _ (fun x a => cleanupLayerListeners_states x a),
      foldl_preserves EngineState.states _
        (fun x a => by split <;> first | rfl | exact hideResetLayer_states x a)]

theorem exitStateM_stack (st : EngineState) (s dest : String) :
    (exitStateM st s dest).stateStack = st.stateStack := by
  simp only [exitStateM]
  split
  · rfl
  · rw [foldl_preserves EngineState.stateStack _ (fun x a => cleanupLayerListeners_stack x a),
      foldl_preserves EngineState.stateStack _
        (fun x a => by split <;> first | rfl | exact hideResetLayer_stack x a)]

theorem exitStateM_managed (st : EngineState) (s dest : String) :
    (exitStateM st s dest).managedLayers = st.managedLayers := by
  simp only [exitStateM]
  split
  · rfl
  · rw [foldl_preserves EngineState.managedLayers _ (fun x a => cleanupLayerListeners_managed x a),
      foldl_preserves EngineState.managedLayers _
        (fun x a => by split <;> first | rfl | exact hideResetLayer_managed x a)]

theorem exitStateM_effects (st : EngineState) (s dest : String) :
    (exitStateM st s dest).effects = st.effects := by
  simp only [exitStateM]
  split
  · rfl
  · rw [foldl_preserves EngineState.effects _ (fun x a => cleanupLayerListeners_effects x a),
      foldl_preserves EngineState.effects _
        (fun x a => by split <;> first | rfl | exact hideResetLayer_effects x a)]

theorem exitAll_states (st : EngineState) (dest : String) :
    (exitAll st dest).states = st.states := by
  simp only [exitAll]
  exact foldl_preserves EngineState.states _ (fun x a => exitStateM_states x a dest) _ st

theorem exitAll_managed (st : EngineState) (dest : String) :
    (exitAll st dest).managedLayers = st.managedLayers := by
  simp only [exitAll]
  exact foldl_preserves EngineState.managedLayers _ (fun x a => exitStateM_managed x a dest) _ st

theorem exitAll_stack (st : EngineState) (dest : String) :
    (exitAll st dest).stateStack = [] := rfl

theorem updateUiVisibility_states (st : EngineState) :
    (updateUiVisibility st).states = st.states := by
  simp only [updateUiVisibility]
  split
  · exact foldl_preserves EngineState.states _ (fun x a => setLayerVisible_states x a false) _ st
  · split
    · rfl
    · exact foldl_preserves EngineState.states _ (fun x a => setLayerVisible_states x a _) _ st

theorem updateUiVisibility_stack (st : EngineState) :
    (updateUiVisibility st).stateStack = st.stateStack := by
  simp only [updateUiVisibility]
  split
  · exact foldl_preserves EngineState.stateStack _ (fun x a => setLayerVisible_stack x a false) _ st
  · split
    · rfl
    · exact foldl_preserves EngineState.stateStack _ (fun x a => setLayerVisible_stack x a _) _ st

theorem updateUiVisibility_managed (st : EngineState) :
    (updateUiVisibility st).managedLayers = st.managedLayers := by
  simp only [updateUiVisibility]
  split
  · exact foldl_preserves EngineState.managedLayers _
      (fun x a => setLayerVisible_managed x a false) _ st
  · split
    · rfl
    · exact foldl_preserves EngineState.managedLayers _
        (fun x a => setLayerVisible_managed x a _) _ st

theorem updateUiVisibility_trace (st : EngineState) :
    (updateUiVisibility st).trace = st.trace := by
  simp only [updateUiVisibility]
  split
  · exact foldl_preserves EngineState.trace _ (fun x a => setLayerVisible_trace x a false) _ st
  · split
    · rfl
    · exact foldl_preserves EngineState.trace _ (fun x a => setLayerVisible_trace x a _) _ st

/-! ### Trace projection lemmas -/

theorem isExitEv_nonLayer : NonLayerSel isExitEv := by
  intro l; constructor <;> rfl

theorem isEnterEv_nonLayer : NonLayerSel isEnterEv := by
  intro l; constructor <;> rfl

theorem isMainEv_nonLayer : NonLayerSel isMainEv := by
  intro l; constructor <;> rfl

theorem hideResetLayer_filter (sel : Ev → Bool) (hsel : NonLayerSel sel)
    (st : EngineState) (l : String) :
    ((hideResetLayer st l).trace).filter sel = st.trace.filter sel := by
  simp only [hideResetLayer]
  split
  · rfl
  · simp [List.filter_append, (hsel l).1]

theorem cleanupLayerListeners_filter (sel : Ev → Bool) (hsel : NonLayerSel sel)
    (st : EngineState) (l : String) :
    ((cleanupLayerListeners st l).trace).filter sel = st.trace.filter sel := by
  simp only [cleanupLayerListeners]
  split
  · rfl
  · simp [List.filter_append, (hsel l).2]

theorem exitStateM_filter (sel : Ev → Bool) (hsel : NonLayerSel sel)
    (st : EngineState) (s dest : String) :
    ((exitStateM st s dest).trace).filter sel
      = st.trace.filter sel ++ (exitHookEvts st.states s dest).filter sel := by
  simp only [exitStateM, exitHookEvts]
  split
  · simp
  · rename_i cfg heq
    rw [foldl_preserves (fun x : EngineState => x.trace.filter sel) _
        (fun x a => cleanupLayerListeners_filter sel hsel x a),
      foldl_preserves (fun x : EngineState => x.trace.filter sel) _
        (fun x a => by
          split
          · rfl
          · exact hideResetLayer_filter sel hsel x a)]
    simp [List.filter_append]

theorem exitFold_filter (sel : Ev → Bool) (hsel : NonLayerSel sel) (dest : String)
    (L : List String) (st : EngineState) :
    ((L.foldl (fun acc s => exitStateM acc s dest) st).trace).filter sel
      = st.trace.filter sel
        ++ (L.map (fun s => (exitHookEvts st.states s dest).filter sel)).flatten := by
  induction L generalizing st with
  | nil => simp
  | cons a L ih =>
    rw [List.foldl_cons, ih, exitStateM_filter sel hsel]
    simp [exitStateM_states]

theorem exitAll_filter (sel : Ev → Bool) (hsel : NonLayerSel sel)
    (st : EngineState) (dest : String) :
    ((exitAll st dest).trace).filter sel
      = st.trace.filter sel
        ++ (st.stateStack.reverse.map
            (fun s => (exitHookEvts st.states s dest).filter sel)).flatten := by
  simp only [exitAll]
  exact exitFold_filter sel hsel dest _ st

theorem effectExitEvts_filter_exit (t : Option String) (p : Option String) (n : String)
    (d : Nat) : (effectExitEvts t p n d).filter isExitEv = [] := by
  cases t <;> rfl

theorem effectEnterEvts_filter_exit (t : Option String) (c : String) (p : Option String)
    (d : Nat) : (effectEnterEvts t c p d).filter isExitEv = [] := by
  cases t <;> rfl

theorem effectExitEvts_filter_enter (t : Option String) (p : Option String) (n : String)
    (d : Nat) : (effectExitEvts t p n d).filter isEnterEv = [] := by
  cases t <;> rfl

theorem effectEnterEvts_filter_enter (t : Option String) (c : String) (p : Option String)
    (d : Nat) : (effectEnterEvts t c p d).filter isEnterEv = [] := by
  cases t <;> rfl

theorem filter_exit_map_exitHook (l : List Nat) (s d : String) :
    (l.map (fun h => Ev.exitHook h s d)).filter isExitEv
      = l.map (fun h => Ev.exitHook h s d) := by
  rw [List.filter_eq_self]
  intro a ha
  obtain ⟨h, _, rfl⟩ := List.mem_map.mp ha
  rfl

theorem filter_enter_map_exitHook (l : List Nat) (s d : String) :
    (l.map (fun h => Ev.exitHook h s d)).filter isEnterEv = [] := by
  rw [List.filter_eq_nil_iff]
  intro a ha
  obtain ⟨h, _, rfl⟩ := List.mem_map.mp ha
  simp [isEnterEv]

theorem filter_exit_map_enterHook (l : List Nat) (s : String) :
    (l.map (fun h => Ev.enterHook h s)).filter isExitEv = [] := by
  rw [List.filter_eq_nil_iff]
  intro a ha
  obtain ⟨h, _, rfl⟩ := List.mem_map.mp ha
  simp [isExitEv]

theorem filter_enter_map_enterHook (l : List Nat) (s : String) :
    (l.map (fun h => Ev.enterHook h s)).filter isEnterEv
      = l.map (fun h => Ev.enterHook h s) := by
  rw [List.filter_eq_self]
  intro a ha
  obtain ⟨h, _, rfl⟩ := List.mem_map.mp ha
  rfl

theorem exitHookEvts_filter_exit (states : List (String × FocusStateConfig))
    (s d : String) :
    (exitHookEvts states s d).filter isExitEv = exitHookEvts states s d := by
  simp only [exitHookEvts]
  split
  · rfl
  · exact filter_exit_map_exitHook _ _ _

theorem filter_enter_map_exitHook_evts (states : List (String × FocusStateConfig))
    (s d : String) : (exitHookEvts states s d).filter isEnterEv = [] := by
  simp only [exitHookEvts]
  split
  · rfl
  · exact filter_enter_map_exitHook _ _ _

theorem flatten_map_nil {α β : Type} (L : List α) (f : α → List β) (h : ∀ a, f a = []) :
    (L.map f).flatten = [] := by
  induction L with
  | nil => rfl
  | cons a L ih => simp [h, ih]

theorem switchBody_filter_exit (st : EngineState) (name : String) (cfg : FocusStateConfig) :
    ((switchBody st name cfg).trace).filter isExitEv
      = st.trace.filter isExitEv
        ++ (st.stateStack.reverse.map (fun s => exitHookEvts st.states s name)).flatten := by
  simp only [switchBody, appendTrace, updateUiVisibility_trace]
  rw [List.filter_append, List.filter_append, List.filter_append,
    exitAll_filter isExitEv isExitEv_nonLayer]
  simp [effectExitEvts_filter_exit, effectEnterEvts_filter_exit, filter_exit_map_enterHook,
    exitHookEvts_filter_exit, isExitEv, List.filter_append]

theorem switchBody_filter_enter (st : EngineState) (name : String)
    (cfg : FocusStateConfig) :
    ((switchBody st name cfg).trace).filter isEnterEv
      = st.trace.filter isEnterEv
        ++ (cfg.onEnter.getD []).map (fun h => Ev.enterHook h name) := by
  simp only [switchBody, appendTrace, updateUiVisibility_trace]
  rw [List.filter_append, List.filter_append, List.filter_append,
    exitAll_filter isEnterEv isEnterEv_nonLayer]
  rw [flatten_map_nil _ _ (fun s => filter_enter_map_exitHook_evts _ s name)]
  simp [effectExitEvts_filter_enter, effectEnterEvts_filter_enter, filter_enter_map_enterHook,
    isEnterEv, List.filter_append]

theorem switchBody_stack (st : EngineState) (name : String) (cfg : FocusStateConfig) :
    (switchBody st name cfg).stateStack = [name] := by
  simp only [switchBody, appendTrace]
  rw [updateUiVisibility_stack]

/-! ### C3: switch exit-hook ordering and destinations -/

/-- C3.  With a stack `[A, B, C]` of registered states and a registered
target `D`, `switch D` produces the exit hooks of C, then B, then A — in that
trace order, so each hook completes before the next begins — each invoked
with destination `D`, and leaves the stack exactly `[D]`. -/
theorem c3_switch_exit_order (st : EngineState) (A B C D : String)
    (cfgA cfgB cfgC cfgD : FocusStateConfig)
    (hstack : st.stateStack = [A, B, C])
    (hA : lookupA st.states A = some cfgA)
    (hB : lookupA st.states B = some cfgB)
    (hC : lookupA st.states C = some cfgC)
    (hD : lookupA st.states D = some cfgD) :
    (switchM st D).stateStack = [D] ∧
    ((switchM st D).trace).filter isExitEv
      = st.trace.filter isExitEv
        ++ ((cfgC.onExit.getD []).map (fun h => Ev.exitHook h C D)
          ++ (cfgB.onExit.getD []).map (fun h => Ev.exitHook h B D)
          ++ (cfgA.onExit.getD []).map (fun h => Ev.exitHook h A D)) := by
  have hguard : ¬(currentOf st = some D ∧ st.stateStack.length = 1) := by
    intro hcl
    rw [hstack] at hcl
    simp at hcl
  rw [switchM, if_neg hguard, hD]
  refine ⟨switchBody_stack st D cfgD, ?_⟩
  rw [switchBody_filter_exit st D cfgD, hstack]
  simp [exitHookEvts, hA, hB, hC]

/-- C3 witness. -/
theorem c3_switch_exit_order_witness :
    (switchM stC3 "D").stateStack = ["D"] ∧
    ((switchM stC3 "D").trace).filter isExitEv
      = stC3.trace.filter isExitEv
        ++ (((({ onExit := some [3] } : FocusStateConfig).onExit.getD []).map
              (fun h => Ev.exitHook h "C" "D"))
          ++ ((({ onExit := some [2] } : FocusStateConfig).onExit.getD []).map
              (fun h => Ev.exitHook h "B" "D"))
          ++ ((({ onExit := some [1] } : FocusStateConfig).onExit.getD []).map
              (fun h => Ev.exitHook h "A" "D"))) :=
  c3_switch_exit_order stC3 "A" "B" "C" "D"
    { onExit := some [1] } { onExit := some [2] } { onExit := some [3] }
    { onEnter := some [4] } rfl rfl rfl rfl rfl

/-! ### C10: switch to the current top of a deep stack is not a no-op -/

/-- C10.  If `T` is the top of a stack of depth ≥ 2, `switch T` is not
guarded away: every stacked state's composed exit hook runs — first `T`'s
own, invoked with destination `T`, then the ones below — the stack is reset
to exactly `[T]`, and `T`'s composed enter hook runs again. -/
theorem c10_switch_to_stacked_top (st : EngineState) (pre : List String) (T : String)
    (cfgT : FocusStateConfig)
    (hpre : pre ≠ [])
    (hstack : st.stateStack = pre ++ [T])
    (hT : lookupA st.states T = some cfgT) :
    (switchM st T).stateStack = [T] ∧
    ((switchM st T).trace).filter isExitEv
      = st.trace.filter isExitEv
        ++ ((cfgT.onExit.getD []).map (fun h => Ev.exitHook h T T)
          ++ (pre.reverse.map (fun s => exitHookEvts st.states s T)).flatten) ∧
    ((switchM st T).trace).filter isEnterEv
      = st.trace.filter isEnterEv
        ++ (cfgT.onEnter.getD []).map (fun h => Ev.enterHook h T) := by
  have hlen : st.stateStack.length ≠ 1 := by
    rw [hstack]
    simp only [List.length_append, List.length_singleton]
    intro hcl
    exact hpre (List.length_eq_zero.mp (by omega))
  have hguard : ¬(currentOf st = some T ∧ st.stateStack.length = 1) := fun hcl => hlen hcl.2
  rw [switchM, if_neg hguard, hT]
  refine ⟨switchBody_stack st T cfgT, ?_, ?_⟩
  · rw [switchBody_filter_exit st T cfgT, hstack]
    simp [exitHookEvts, hT]
  · exact switchBody_filter_enter st T cfgT

/-- C10 witness. -/
theorem c10_switch_to_stacked_top_witness :
    (switchM stC10 "T").stateStack = ["T"] ∧
    ((switchM stC10 "T").trace).filter isExitEv
      = stC10.trace.filter isExitEv
        ++ (((({ onExit := some [2], onEnter := some [3] } : FocusStateConfig).onExit.getD
              []).map (fun h => Ev.exitHook h "T" "T"))
          ++ ((["A"] : List String).reverse.map
              (fun s => exitHookEvts stC10.states s "T")).flatten) ∧
    ((switchM stC10 "T").trace).filter isEnterEv
      = stC10.trace.filter isEnterEv
        ++ (({ onExit := some [2], onEnter := some [3] } : FocusStateConfig).onEnter.getD
            []).map (fun h => Ev.enterHook h "T") :=
  c10_switch_to_stacked_top stC10 ["A"] "T"
    { onExit := some [2], onEnter := some [3] } (by decide) rfl rfl

/-! ### Body-level structural lemmas for push/pop/switch -/

theorem switchBody_states (st : EngineState) (name : String) (cfg : FocusStateConfig) :
    (switchBody st name cfg).states = st.states := by
  simp only [switchBody, appendTrace]
  rw [updateUiVisibility_states]
  exact exitAll_states _ _

theorem switchBody_managed (st : EngineState) (name : String) (cfg : FocusStateConfig) :
    (switchBody st name cfg).managedLayers = st.managedLayers := by
  simp only [switchBody, appendTrace]
  rw [updateUiVisibility_managed]
  exact exitAll_managed _ _

theorem pushBody_states (st : EngineState) (name : String) (cfg : FocusStateConfig) :
    (pushBody st name cfg).states = st.states := by
  simp only [pushBody, appendTrace]
  rw [updateUiVisibility_states]

theorem pushBody_managed (st : EngineState) (name : String) (cfg : FocusStateConfig) :
    (pushBody st name cfg).managedLayers = st.managedLayers := by
  simp only [pushBody, appendTrace]
  rw [updateUiVisibility_managed]

theorem pushBody_stack (st : EngineState) (name : String) (cfg : FocusStateConfig) :
    (pushBody st name cfg).stateStack = st.stateStack ++ [name] := by
  simp only [pushBody, appendTrace]
  rw [updateUiVisibility_stack]

theorem popBody_states (st : EngineState) (toPop resume : String)
    (cfgPop : FocusStateConfig) :
    (popBody st toPop resume cfgPop).states = st.states := by
  simp only [popBody, appendTrace]
  rw [updateUiVisibility_states]
  exact exitStateM_states _ _ _

theorem popBody_managed (st : EngineState) (toPop resume : String)
    (cfgPop : FocusStateConfig) :
    (popBody st toPop resume cfgPop).managedLayers = st.managedLayers := by
  simp only [popBody, appendTrace]
  rw [updateUiVisibility_managed]
  exact exitStateM_managed _ _ _

theorem popBody_stack (st : EngineState) (toPop resume : String)
    (cfgPop : FocusStateConfig) :
    (popBody st toPop resume cfgPop).stateStack = st.stateStack.dropLast := by
  simp only [popBody, appendTrace]
  rw [updateUiVisibility_stack]
  rw [exitStateM_stack]

theorem popM_eq (st : EngineState) (pre : List String) (A B : String)
    (cfgB : FocusStateConfig)
    (hstack : st.stateStack = pre ++ [A, B])
    (hB : lookupA st.states B = some cfgB) :
    popM st = popBody st B A cfgB := by
  have hlen : ¬st.stateStack.length ≤ 1 := by
    rw [hstack]
    simp only [List.length_append, List.length_cons, List.length_nil]
    omega
  have hrev : st.stateStack.reverse = B :: A :: pre.reverse := by
    rw [hstack]
    simp
  rw [popM, if_neg hlen, hrev]
  simp only [hB]

/-! ### C8: pop uses the popped state's transition effect and duration -/

theorem effectExitEvts_filter_main (t : Option String) (p : Option String) (n : String)
    (d : Nat) : (effectExitEvts t p n d).filter isMainEv = effectExitEvts t p n d := by
  cases t <;> rfl

theorem effectEnterEvts_filter_main (t : Option String) (c : String) (p : Option String)
    (d : Nat) : (effectEnterEvts t c p d).filter isMainEv = effectEnterEvts t c p d := by
  cases t <;> rfl

theorem exitHookEvts_filter_main (states : List (String × FocusStateConfig))
    (s d : String) :
    (exitHookEvts states s d).filter isMainEv = exitHookEvts states s d := by
  simp only [exitHookEvts]
  split
  · rfl
  · rw [List.filter_eq_self]
    intro a ha
    obtain ⟨h, _, rfl⟩ := List.mem_map.mp ha
    rfl

theorem popBody_filter_main (st : EngineState) (toPop resume : String)
    (cfgPop : FocusStateConfig) :
    ((popBody st toPop resume cfgPop).trace).filter isMainEv
      = st.trace.filter isMainEv
        ++ (effectExitEvts (getTransitionEffect st.effects cfgPop.transitionEffectName)
              (some toPop) resume (cfgPop.transitionDuration.getD 300)
          ++ exitHookEvts st.states toPop resume
          ++ [Ev.stateChanged resume (some toPop)]
          ++ effectEnterEvts (getTransitionEffect st.effects cfgPop.transitionEffectName)
              resume (some toPop) (cfgPop.transitionDuration.getD 300)) := by
  simp only [popBody, appendTrace, updateUiVisibility_trace]
  rw [List.filter_append, List.filter_append,
    exitStateM_filter isMainEv isMainEv_nonLayer]
  simp [effectExitEvts_filter_main, effectEnterEvts_filter_main, exitHookEvts_filter_main,
    isMainEv, isEffectEv, isExitEv, isChangedEv, List.filter_append]

/-- C8.  On `pop` over a stack `[..., A, B]`, the transition effect and
duration used are the ones declared by `B`, the state being removed: its exit
phase is invoked `(from = B, to = A)` before B's composed exit hook runs, the
same effect's enter phase is invoked `(current = A, previous = B)` after A is
resumed (after the state-change notification), the duration defaults to 300
when B declares none, and the stack becomes `[..., A]`. -/
theorem c8_pop_effect (st : EngineState) (pre : List String) (A B e : String)
    (cfgB : FocusStateConfig)
    (hstack : st.stateStack = pre ++ [A, B])
    (hB : lookupA st.states B = some cfgB)
    (heff : cfgB.transitionEffectName = some e)
    (hreg : e ∈ st.effects)
    (hdur : cfgB.transitionDuration = none) :
    (popM st).stateStack = pre ++ [A] ∧
    ((popM st).trace).filter isMainEv
      = st.trace.filter isMainEv
        ++ ([Ev.effectExit e (some B) A 300]
          ++ (cfgB.onExit.getD []).map (fun h => Ev.exitHook h B A)
          ++ [Ev.stateChanged A (some B)]
          ++ [Ev.effectEnter e A (some B) 300]) := by
  rw [popM_eq st pre A B cfgB hstack hB]
  constructor
  · rw [popBody_stack, hstack]
    have : pre ++ [A, B] = (pre ++ [A]) ++ [B] := by simp
    rw [this, List.dropLast_concat]
  · rw [popBody_filter_main]
    rw [heff, hdur]
    simp [getTransitionEffect, hreg, effectExitEvts, effectEnterEvts, exitHookEvts, hB]

/-- C8 witness.  `B` declares effect `"fade"` with no duration; `A`
declares a different effect, which is not used. -/
theorem c8_pop_effect_witness :
    (popM stC8).stateStack = [] ++ ["A"] ∧
    ((popM stC8).trace).filter isMainEv
      = stC8.trace.filter isMainEv
        ++ ([Ev.effectExit "fade" (some "B") "A" 300]
          ++ ((({ transitionEffectName := some "fade", onExit := some [7] } :
                FocusStateConfig).onExit.getD []).map (fun h => Ev.exitHook h "B" "A"))
          ++ [Ev.stateChanged "A" (some "B")]
          ++ [Ev.effectEnter "fade" "A" (some "B") 300]) :=
  c8_pop_effect stC8 [] "A" "B" "fade"
    { transitionEffectName := some "fade", onExit := some [7] }
    rfl rfl rfl (by decide) rfl

/-! ### C4: stack depth invariant -/

theorem pushM_eq (st : EngineState) (name : String) (cfg : FocusStateConfig)
    (hcur : currentOf st ≠ some name)
    (hcfg : lookupA st.states name = some cfg) :
    pushM st name = pushBody st name cfg := by
  rw [pushM, if_neg hcur, hcfg]

theorem stack_decomp_of_two_le (st : EngineState) (h : 2 ≤ st.stateStack.length) :
    ∃ pre A B, st.stateStack = pre ++ [A, B] := by
  rcases hr : st.stateStack.reverse with _ | ⟨B, rest1⟩
  · rw [List.reverse_eq_nil_iff] at hr
    rw [hr] at h
    simp at h
  · rcases rest1 with _ | ⟨A, rest⟩
    · have h1 : st.stateStack.length = 1 := by
        have := congrArg List.length hr
        simpa using this
      omega
    · refine ⟨rest.reverse, A, B, ?_⟩
      have h2 : st.stateStack.reverse.reverse = (B :: A :: rest).reverse := by rw [hr]
      simpa using h2

theorem runOps_length (ops : List StackOp) :
    ∀ st : EngineState, StackRegistered st → ValidSeq st ops →
      (runOps st ops).stateStack.length + countPops ops
        = st.stateStack.length + countPushes ops := by
  induction ops with
  | nil =>
    intro st _ _
    simp [runOps, countPops, countPushes]
  | cons op rest ih =>
    intro st hreg hvalid
    cases op with
    | push n =>
      obtain ⟨hn, hcur, hrest⟩ := hvalid
      obtain ⟨cfg, hcfg⟩ := Option.isSome_iff_exists.mp hn
      have hpushEq : pushM st n = pushBody st n cfg := pushM_eq st n cfg hcur hcfg
      have hreg1 : StackRegistered (pushM st n) := by
        intro s hs
        rw [hpushEq, pushBody_states]
        rw [hpushEq, pushBody_stack] at hs
        rcases List.mem_append.mp hs with h | h
        · exact hreg s h
        · simp at h
          subst h
          rw [hcfg]
          rfl
      have hrec := ih (pushM st n) hreg1 hrest
      have hlen2 : (pushM st n).stateStack.length = st.stateStack.length + 1 := by
        rw [hpushEq, pushBody_stack]
        simp
      rw [runOps]
      simp only [countPops, countPushes]
      omega
    | pop =>
      obtain ⟨hlen, hrest⟩ := hvalid
      obtain ⟨pre, A, B, hstack⟩ := stack_decomp_of_two_le st hlen
      have hBmem : B ∈ st.stateStack := by
        rw [hstack]
        simp
      obtain ⟨cfgB, hcfgB⟩ := Option.isSome_iff_exists.mp (hreg B hBmem)
      have hpopEq : popM st = popBody st B A cfgB := popM_eq st pre A B cfgB hstack hcfgB
      have hreg1 : StackRegistered (popM st) := by
        intro s hs
        rw [hpopEq, popBody_states]
        rw [hpopEq, popBody_stack] at hs
        exact hreg s (List.mem_of_mem_dropLast hs)
      have hrec := ih (popM st) hreg1 hrest
      have hlen2 : (popM st).stateStack.length + 1 = st.stateStack.length := by
        rw [hpopEq, popBody_stack, hstack]
        have hsplit : pre ++ [A, B] = (pre ++ [A]) ++ [B] := by simp
        rw [hsplit, List.dropLast_concat]
        simp only [List.length_append, List.length_cons, List.length_nil]
      rw [runOps]
      simp only [countPops, countPushes]
      omega

/-- C4.  After one initial `switch` to a registered state from an empty
stack, any valid interleaving of `n` pushes (registered target, different
from the current top) and `m` pops (each at depth ≥ 2) leaves the stack at
depth `1 + n − m`; and `pop` at depth ≤ 1 is a complete no-op. -/
theorem c4_stack_invariant :
    (∀ (st0 : EngineState) (init : String) (cfg : FocusStateConfig) (ops : List StackOp),
        lookupA st0.states init = some cfg → st0.stateStack = [] →
        ValidSeq (switchM st0 init) ops →
        (runOps (switchM st0 init) ops).stateStack.length
          = 1 + countPushes ops - countPops ops) ∧
    (∀ st : EngineState, st.stateStack.length ≤ 1 → popM st = st) := by
  constructor
  · intro st0 init cfg ops hcfg hempty hvalid
    have hguard : ¬(currentOf st0 = some init ∧ st0.stateStack.length = 1) := by
      intro hcl
      rw [hempty] at hcl
      simp at hcl
    have hswitchEq : switchM st0 init = switchBody st0 init cfg := by
      rw [switchM, if_neg hguard, hcfg]
    have hstack1 : (switchM st0 init).stateStack = [init] := by
      rw [hswitchEq]
      exact switchBody_stack _ _ _
    have hreg1 : StackRegistered (switchM st0 init) := by
      intro s hs
      rw [hstack1] at hs
      simp at hs
      subst hs
      rw [hswitchEq, switchBody_states, hcfg]
      rfl
    have := runOps_length ops (switchM st0 init) hreg1 hvalid
    rw [hstack1] at this
    simp at this
    omega
  · intro st h
    rw [popM, if_pos h]

/-- C4 witness.  `switch base; push x; push y; pop` ends at depth
`1 + 2 − 1 = 2`; and a pop on the resulting sole-entry-or-smaller stack is
exercised via the depth-1 base state. -/
theorem c4_stack_invariant_witness :
    ((runOps (switchM stC4 "base") [StackOp.push "x", StackOp.push "y", StackOp.pop]
        ).stateStack.length
      = 1 + countPushes [StackOp.push "x", StackOp.push "y", StackOp.pop]
        - countPops [StackOp.push "x", StackOp.push "y", StackOp.pop]) ∧
    popM (switchM stC4 "base") = switchM stC4 "base" :=
  ⟨c4_stack_invariant.1 stC4 "base" {} [StackOp.push "x", StackOp.push "y", StackOp.pop]
      rfl rfl ⟨by decide, by decide, by decide, by decide, by decide, trivial⟩,
    c4_stack_invariant.2 (switchM stC4 "base") (by decide)⟩

/-! ### C6: the visibility sweep -/

theorem lookupA_setLayerVisible_self (st : EngineState) (l : String) (b : Bool) :
    lookupA (setLayerVisible st l b).layers l = (lookupA st.layers l).map (fun _ => b) := by
  simp only [setLayerVisible]
  split
  · rename_i h
    rw [h]
    rfl
  · rename_i v h
    rw [h]
    show lookupA (putA st.layers l b) l = some b
    exact lookupA_putA_self _ _ _

theorem lookupA_setLayerVisible_other (st : EngineState) (x : String) (b : Bool)
    (l : String) (hne : l ≠ x) :
    lookupA (setLayerVisible st x b).layers l = lookupA st.layers l := by
  simp only [setLayerVisible]
  split
  · rfl
  · exact lookupA_putA_other _ x l b (fun he => hne he.symm)

theorem visFold_lookup (vis : List String) (M : List String) :
    ∀ (st : EngineState) (l : String),
      lookupA ((M.foldl (fun acc x => setLayerVisible acc x (decide (x ∈ vis))) st).layers) l
        = if l ∈ M ∧ (lookupA st.layers l).isSome then some (decide (l ∈ vis))
          else lookupA st.layers l := by
  induction M with
  | nil =>
    intro st l
    simp
  | cons x M ih =>
    intro st l
    rw [List.foldl_cons, ih]
    by_cases hlx : l = x
    · subst hlx
      rcases hv : lookupA st.layers l with _ | v
      · rw [lookupA_setLayerVisible_self, hv]
        simp
      · rw [lookupA_setLayerVisible_self, hv]
        by_cases hmem : l ∈ M
        · simp [hmem]
        · simp [hmem]
    · rw [lookupA_setLayerVisible_other st x _ l hlx]
      simp [List.mem_cons, hlx]

theorem updateUiVisibility_lookup (st : EngineState) (top : String)
    (cfg : FocusStateConfig) (hcur : currentOf st = some top)
    (hcfg : lookupA st.states top = some cfg) (l : String) (hl : l ∈ st.managedLayers)
    (b : Bool) (hb : lookupA (updateUiVisibility st).layers l = some b) :
    b = decide (l ∈ cfg.uiVisible.getD []) := by
  rw [updateUiVisibility, hcur] at hb
  simp only [hcfg] at hb
  rw [visFold_lookup] at hb
  split at hb
  · exact (Option.some_inj.mp hb).symm
  · rename_i hcond
    exact absurd ⟨hl, by rw [hb]; rfl⟩ hcond

theorem switchBody_visibility (st : EngineState) (name : String) (cfg : FocusStateConfig)
    (hcfg : lookupA st.states name = some cfg) (l : String) (b : Bool)
    (hl : l ∈ st.managedLayers)
    (hb : lookupA (switchBody st name cfg).layers l = some b) :
    b = decide (l ∈ cfg.uiVisible.getD []) := by
  simp only [switchBody, appendTrace] at hb
  refine updateUiVisibility_lookup _ name cfg ?_ ?_ l ?_ b hb
  · rfl
  · show lookupA (exitAll _ name).states name = some cfg
    rw [exitAll_states]
    exact hcfg
  · show l ∈ (exitAll _ name).managedLayers
    rw [exitAll_managed]
    exact hl

theorem pushBody_visibility (st : EngineState) (name : String) (cfg : FocusStateConfig)
    (hcfg : lookupA st.states name = some cfg) (l : String) (b : Bool)
    (hl : l ∈ st.managedLayers)
    (hb : lookupA (pushBody st name cfg).layers l = some b) :
    b = decide (l ∈ cfg.uiVisible.getD []) := by
  simp only [pushBody, appendTrace] at hb
  refine updateUiVisibility_lookup _ name cfg ?_ ?_ l ?_ b hb
  · show (st.stateStack ++ [name]).getLast? = some name
    simp
  · exact hcfg
  · exact hl

theorem popBody_visibility (st : EngineState) (pre : List String) (A B : String)
    (cfgA cfgB : FocusStateConfig)
    (hstack : st.stateStack = pre ++ [A, B])
    (hA : lookupA st.states A = some cfgA) (l : String) (b : Bool)
    (hl : l ∈ st.managedLayers)
    (hb : lookupA (popBody st B A cfgB).layers l = some b) :
    b = decide (l ∈ cfgA.uiVisible.getD []) := by
  simp only [popBody, appendTrace] at hb
  refine updateUiVisibility_lookup _ A cfgA ?_ ?_ l ?_ b hb
  · show ((exitStateM _ B A).stateStack.dropLast).getLast? = some A
    rw [exitStateM_stack]
    show (st.stateStack.dropLast).getLast? = some A
    rw [hstack]
    have hsplit : pre ++ [A, B] = (pre ++ [A]) ++ [B] := by simp
    rw [hsplit, List.dropLast_concat]
    simp
  · show lookupA (exitStateM _ B A).states A = some cfgA
    rw [exitStateM_states]
    exact hA
  · show l ∈ (exitStateM _ B A).managedLayers
    rw [exitStateM_managed]
    exact hl

/-- C6.  After every completed `switch`, `push` or `pop` (one whose guards
pass), each managed surface that exists in the layer manager is shown iff it
belongs to the new top state's `visible` set — whatever its visibility was
before the transition. -/
theorem c6_visibility_sweep :
    (∀ (st : EngineState) (name : String) (cfg : FocusStateConfig) (l : String) (b : Bool),
        ¬(currentOf st = some name ∧ st.stateStack.length = 1) →
        lookupA st.states name = some cfg →
        l ∈ (switchM st name).managedLayers →
        lookupA (switchM st name).layers l = some b →
        (b = true ↔ l ∈ cfg.uiVisible.getD [])) ∧
    (∀ (st : EngineState) (name : String) (cfg : FocusStateConfig) (l : String) (b : Bool),
        currentOf st ≠ some name →
        lookupA st.states name = some cfg →
        l ∈ (pushM st name).managedLayers →
        lookupA (pushM st name).layers l = some b →
        (b = true ↔ l ∈ cfg.uiVisible.getD [])) ∧
    (∀ (st : EngineState) (pre : List String) (A B : String)
        (cfgA cfgB : FocusStateConfig) (l : String) (b : Bool),
        st.stateStack = pre ++ [A, B] →
        lookupA st.states A = some cfgA →
        lookupA st.states B = some cfgB →
        l ∈ (popM st).managedLayers →
        lookupA (popM st).layers l = some b →
        (b = true ↔ l ∈ cfgA.uiVisible.getD [])) := by
  refine ⟨?_, ?_, ?_⟩
  · intro st name cfg l b hguard hcfg hl hb
    rw [switchM, if_neg hguard] at hl hb
    simp only [hcfg] at hl hb
    rw [switchBody_managed] at hl
    rw [switchBody_visibility st name cfg hcfg l b hl hb]
    simp
  · intro st name cfg l b hcur hcfg hl hb
    rw [pushM, if_neg hcur] at hl hb
    simp only [hcfg] at hl hb
    rw [pushBody_managed] at hl
    rw [pushBody_visibility st name cfg hcfg l b hl hb]
    simp
  · intro st pre A B cfgA cfgB l b hstack hA hB hl hb
    rw [popM_eq st pre A B cfgB hstack hB] at hl hb
    rw [popBody_managed] at hl
    rw [popBody_visibility st pre A B cfgA cfgB hstack hA l b hl hb]
    simp

/-- C6 witness.  Switching to `lobby` (visible = `["menu"]`) from a stack
`["game"]`: the managed layer `"menu"` ends up shown, and shown iff declared
visible. -/
theorem c6_visibility_sweep_witness :
    (true = true ↔ "menu" ∈
      (({ uiVisible := some ["menu"], uiLayers := [("menu", 0)], onEnter := some [6] } :
        FocusStateConfig).uiVisible.getD [])) :=
  c6_visibility_sweep.1 stC6 "lobby"
    { uiVisible := some ["menu"], uiLayers := [("menu", 0)], onEnter := some [6] }
    "menu" true (by decide) rfl (by decide) (by decide)

/-! ### C7: delegated-listener master-handler invariant -/

theorem layerInv_init : LayerInv {} := by
  refine ⟨rfl, List.nodup_nil, ?_⟩
  intro t
  simp

theorem layerInv_on (l : UILayerM) (hinv : LayerInv l) (t s : String) (cb : Nat) :
    LayerInv (layerOn l t s cb) := by
  obtain ⟨hel, hnd, hiff⟩ := hinv
  simp only [layerOn]
  by_cases ht : t ∈ l.masterHandlers
  · simp only [if_pos ht]
    refine ⟨hel, hnd, ?_⟩
    intro u
    constructor
    · intro hu
      obtain ⟨d, hd, hdt⟩ := (hiff u).mp hu
      exact ⟨d, List.mem_append_left _ hd, hdt⟩
    · rintro ⟨d, hd, hdt⟩
      rcases List.mem_append.mp hd with h | h
      · exact (hiff u).mpr ⟨d, h, hdt⟩
      · simp only [List.mem_singleton] at h
        subst h
        have htu : t = u := hdt
        exact htu ▸ ht
  · simp only [if_neg ht]
    refine ⟨by rw [hel], ?_, ?_⟩
    · simp [List.nodup_append, hnd, ht]
    · intro u
      simp only [List.mem_append, List.mem_singleton]
      constructor
      · rintro (hu | hu)
        · obtain ⟨d, hd, hdt⟩ := (hiff u).mp hu
          exact ⟨d, Or.inl hd, hdt⟩
        · subst hu
          exact ⟨⟨u, s, cb⟩, Or.inr rfl, rfl⟩
      · rintro ⟨d, hd, hdt⟩
        rcases hd with h | h
        · exact Or.inl ((hiff u).mpr ⟨d, h, hdt⟩)
        · subst h
          exact Or.inr hdt.symm

theorem exists_filter_iff_of_ne (del : List DelegatedL) (t s : String) (cb : Nat)
    (u : String) (hu : u ≠ t) :
    (∃ d ∈ del.filter
        (fun d => decide (¬(d.eventType = t ∧ d.selector = s ∧ d.callback = cb))),
      d.eventType = u)
      ↔ ∃ d ∈ del, d.eventType = u := by
  constructor
  · rintro ⟨d, hd, hdt⟩
    exact ⟨d, (List.mem_filter.mp hd).1, hdt⟩
  · rintro ⟨d, hd, hdt⟩
    refine ⟨d, List.mem_filter.mpr ⟨hd, ?_⟩, hdt⟩
    simp only [decide_eq_true_eq]
    rintro ⟨het, _, _⟩
    exact hu (by rw [← hdt, het])

theorem layerInv_off (l : UILayerM) (hinv : LayerInv l) (t s : String) (cb : Nat) :
    LayerInv (layerOff l t s cb) := by
  obtain ⟨hel, hnd, hiff⟩ := hinv
  simp only [layerOff]
  by_cases hmore : (l.delegated.filter
      (fun d => decide (¬(d.eventType = t ∧ d.selector = s ∧ d.callback = cb)))).any
        (fun d => d.eventType == t) = true
  · simp only [if_pos hmore]
    refine ⟨hel, hnd, ?_⟩
    intro u
    by_cases hut : u = t
    · subst hut
      constructor
      · intro _hu
        obtain ⟨d, hd, hdt⟩ := List.any_eq_true.mp hmore
        exact ⟨d, hd, beq_iff_eq.mp hdt⟩
      · rintro ⟨d, hd, hdt⟩
        exact (hiff u).mpr ⟨d, (List.mem_filter.mp hd).1, hdt⟩
    · rw [exists_filter_iff_of_ne l.delegated t s cb u hut]
      exact hiff u
  · have hnone : ∀ d ∈ l.delegated.filter
        (fun d => decide (¬(d.eventType = t ∧ d.selector = s ∧ d.callback = cb))),
        d.eventType ≠ t := by
      intro d hd
      have := List.any_eq_false.mp (Bool.of_not_eq_true hmore) d hd
      simpa using this
    by_cases htm : t ∈ l.masterHandlers
    · simp only [if_neg hmore, if_pos htm]
      refine ⟨by rw [hel], hnd.erase t, ?_⟩
      intro u
      rw [hnd.mem_erase_iff]
      by_cases hut : u = t
      · subst hut
        constructor
        · rintro ⟨hne, _⟩
          exact absurd rfl hne
        · rintro ⟨d, hd, hdt⟩
          exact absurd hdt (hnone d hd)
      · rw [exists_filter_iff_of_ne l.delegated t s cb u hut]
        constructor
        · rintro ⟨_, hu⟩
          exact (hiff u).mp hu
        · intro h
          exact ⟨hut, (hiff u).mpr h⟩
    · simp only [if_neg hmore, if_neg htm]
      refine ⟨hel, hnd, ?_⟩
      intro u
      by_cases hut : u = t
      · subst hut
        constructor
        · intro hu
          exact absurd hu htm
        · rintro ⟨d, hd, hdt⟩
          exact absurd hdt (hnone d hd)
      · rw [exists_filter_iff_of_ne l.delegated t s cb u hut]
        exact hiff u

theorem applyLOps_inv (ops : List LOp) :
    ∀ l : UILayerM, LayerInv l → LayerInv (applyLOps ops l) := by
  induction ops with
  | nil =>
    intro l h
    exact h
  | cons op rest ih =>
    intro l h
    rcases op with ⟨t, s, cb⟩ | ⟨t, s, cb⟩
    · exact ih _ (layerInv_on l h t s cb)
    · exact ih _ (layerInv_off l h t s cb)

/-- C7.  After any sequence of delegated `on`/`off` calls from a fresh
layer, the root element carries exactly one listener registration for an
event type when at least one `(selector, callback)` pair is registered for
it, and none when the last pair has been removed; and every registered pair
is still functional: a dispatch of its event type whose target matches its
selector invokes its callback. -/
theorem c7_delegation_invariant (ops : List LOp) (t : String) :
    ((applyLOps ops {}).elementListeners.count t
      = if ∃ d ∈ (applyLOps ops {}).delegated, d.eventType = t then 1 else 0) ∧
    (∀ d ∈ (applyLOps ops {}).delegated, ∀ target : String → Bool,
        target d.selector = true →
        d.callback ∈ dispatchL (applyLOps ops {}) d.eventType target) := by
  obtain ⟨hel, hnd, hiff⟩ := applyLOps_inv ops {} layerInv_init
  constructor
  · rw [hel]
    by_cases hex : ∃ d ∈ (applyLOps ops {}).delegated, d.eventType = t
    · rw [if_pos hex]
      exact List.count_eq_one_of_mem hnd ((hiff t).mpr hex)
    · rw [if_neg hex]
      exact List.count_eq_zero_of_not_mem (fun hm => hex ((hiff t).mp hm))
  · intro d hd target htarget
    have hmem : d.eventType ∈ (applyLOps ops {}).elementListeners := by
      rw [hel]
      exact (hiff d.eventType).mpr ⟨d, hd, rfl⟩
    rw [dispatchL, List.mem_flatten]
    refine ⟨masterHandlerRun (applyLOps ops {}) d.eventType target, ?_, ?_⟩
    · exact List.mem_map.mpr ⟨d.eventType,
        List.mem_filter.mpr ⟨hmem, by simp⟩, rfl⟩
    · rw [masterHandlerRun]
      exact List.mem_map.mpr ⟨d, List.mem_filter.mpr ⟨hd, by simp [htarget]⟩, rfl⟩

/-- C7 witness.  Two pairs for `click`, then one removed: one master
registration remains and the surviving pair is still dispatched. -/
theorem c7_delegation_invariant_witness :
    ((applyLOps c7Ops {}).elementListeners.count "click"
      = if ∃ d ∈ (applyLOps c7Ops {}).delegated, d.eventType = "click" then 1 else 0) ∧
    (2 ∈ dispatchL (applyLOps c7Ops {}) "click" (fun s => s == "#b")) :=
  ⟨(c7_delegation_invariant c7Ops "click").1,
    (c7_delegation_invariant c7Ops "click").2 ⟨"click", "#b", 2⟩ (by decide)
      (fun s => s == "#b") (by decide)⟩

/-! ### C9: content replacement tears down listeners first -/

theorem foldl_erase_self {α : Type} [DecidableEq α] :
    ∀ L : List α, L.foldl (fun el t => el.erase t) L = []
  | [] => rfl
  | a :: L => by
    rw [List.foldl_cons, List.erase_cons_head]
    exact foldl_erase_self L

theorem runCleanupTasks_filter (env : Nat → Except String Unit) (tasks : List Nat) :
    (runCleanupTasks env tasks).filter isTaskRanEv = tasks.map LayerEv.taskRan := by
  induction tasks with
  | nil => rfl
  | cons t rest ih =>
    rw [runCleanupTasks, List.filter_append, List.filter_append, ih]
    rcases env t with _ | e <;> simp [isTaskRanEv]

/-- C9.  `html` (content replacement) first runs every registered cleanup
task and removes every delegated subscription and master listener — the trace
shows all cleanup-task runs and master removals strictly before the content
replacement — and only then installs the new content; afterwards no master
listener registration remains on the layer's root element. -/
theorem c9_html_teardown (l : UILayerM) (env : Nat → Except String Unit)
    (content : List Nat) (hwf : l.elementListeners = l.masterHandlers) :
    (htmlL env l content).1.delegated = [] ∧
    (htmlL env l content).1.masterHandlers = [] ∧
    (htmlL env l content).1.elementListeners = [] ∧
    (htmlL env l content).1.domChildren = content ∧
    (htmlL env l content).2
      = runCleanupTasks env l.cleanupTasks
        ++ l.masterHandlers.map LayerEv.masterRemoved
        ++ [LayerEv.contentReplaced content] ∧
    (runCleanupTasks env l.cleanupTasks).filter isTaskRanEv
      = l.cleanupTasks.map LayerEv.taskRan := by
  refine ⟨rfl, rfl, ?_, rfl, rfl, runCleanupTasks_filter env l.cleanupTasks⟩
  show l.masterHandlers.foldl (fun el t => el.erase t) l.elementListeners = []
  rw [hwf]
  exact foldl_erase_self l.masterHandlers

/-- C9 witness. -/
theorem c9_html_teardown_witness :
    (htmlL c2Env c9Layer [9]).1.delegated = [] ∧
    (htmlL c2Env c9Layer [9]).1.masterHandlers = [] ∧
    (htmlL c2Env c9Layer [9]).1.elementListeners = [] ∧
    (htmlL c2Env c9Layer [9]).1.domChildren = [9] ∧
    (htmlL c2Env c9Layer [9]).2
      = runCleanupTasks c2Env c9Layer.cleanupTasks
        ++ c9Layer.masterHandlers.map LayerEv.masterRemoved
        ++ [LayerEv.contentReplaced [9]] ∧
    (runCleanupTasks c2Env c9Layer.cleanupTasks).filter isTaskRanEv
      = c9Layer.cleanupTasks.map LayerEv.taskRan :=
  c9_html_teardown c9Layer c2Env [9] rfl

/-! ### C2: exception isolation at the dispatch boundaries -/

/-- C2 counterexample.  The key-listener wrapper installed on the
document contains no try/catch: with state `"menu"` current, key `"Enter"`
matching, and a callback that throws, the wrapper itself propagates the
exception — it is not caught at the framework's dispatch boundary and nothing
logs it (contrast `clearListeners` and `emit`, which do catch). -/
theorem c2_counterexample :
    keyListenerHandler (some "menu") "menu" "Enter" (Except.error "boom") "Enter"
      = Except.error "boom" := by
  rfl

theorem emitBus_all_invoked (env : Nat → Except String Unit) (handlers : List Nat) :
    (emitBus env handlers).filter isInvokedEv = handlers.map BusEv.invoked := by
  induction handlers with
  | nil => rfl
  | cons cb rest ih =>
    rw [emitBus, List.filter_append, List.filter_append, ih]
    rcases env cb with _ | e <;> simp [isInvokedEv]

theorem runCleanupTasks_logs (env : Nat → Except String Unit) (tasks : List Nat)
    (t : Nat) (ht : t ∈ tasks) (e : String) (he : env t = Except.error e) :
    LayerEv.taskErrorLogged t ∈ runCleanupTasks env tasks := by
  induction tasks with
  | nil => exact absurd ht (List.not_mem_nil t)
  | cons t0 rest ih =>
    rw [runCleanupTasks]
    rcases List.mem_cons.mp ht with h | h
    · subst h
      rw [he]
      simp
    · simp [ih h]

theorem emitBus_logs (env : Nat → Except String Unit) (handlers : List Nat)
    (cb : Nat) (hcb : cb ∈ handlers) (e : String) (he : env cb = Except.error e) :
    BusEv.errorLogged cb ∈ emitBus env handlers := by
  induction handlers with
  | nil => exact absurd hcb (List.not_mem_nil cb)
  | cons c0 rest ih =>
    rw [emitBus]
    rcases List.mem_cons.mp hcb with h | h
    · subst h
      rw [he]
      simp
    · simp [ih h]

/-- C2 amended.  Exceptions from cleanup tasks and event-bus handlers are
caught per callback at their dispatch loops and logged, and every remaining
sibling task/handler of the same dispatch still runs (the run/invocation
trace always covers the whole list, whatever the environment throws).  The
state-scoped key-handler wrapper, however, has no framework-level catch: when
its guard passes it returns exactly whatever the user callback produces,
including a thrown exception. -/
theorem c2_amended :
    (∀ (env : Nat → Except String Unit) (tasks : List Nat),
        (runCleanupTasks env tasks).filter isTaskRanEv = tasks.map LayerEv.taskRan ∧
        ∀ t ∈ tasks, ∀ e, env t = Except.error e →
          LayerEv.taskErrorLogged t ∈ runCleanupTasks env tasks) ∧
    (∀ (env : Nat → Except String Unit) (handlers : List Nat),
        (emitBus env handlers).filter isInvokedEv = handlers.map BusEv.invoked ∧
        ∀ cb ∈ handlers, ∀ e, env cb = Except.error e →
          BusEv.errorLogged cb ∈ emitBus env handlers) ∧
    (∀ (stateName lkey : String) (cb : Except String Unit),
        keyListenerHandler (some stateName) stateName lkey cb lkey = cb) := by
  refine ⟨?_, ?_, ?_⟩
  · intro env tasks
    exact ⟨runCleanupTasks_filter env tasks,
      fun t ht e he => runCleanupTasks_logs env tasks t ht e he⟩
  · intro env handlers
    exact ⟨emitBus_all_invoked env handlers,
      fun cb hcb e he => emitBus_logs env handlers cb hcb e he⟩
  · intro stateName lkey cb
    rw [keyListenerHandler, if_pos ⟨rfl, rfl⟩]

/-- C2 witness.  A throwing cleanup task and a throwing bus handler are
logged while their siblings still run; the key wrapper passes the error
through. -/
theorem c2_amended_witness :
    ((runCleanupTasks c2Env [0, 1]).filter isTaskRanEv
        = [0, 1].map LayerEv.taskRan ∧
      LayerEv.taskErrorLogged 0 ∈ runCleanupTasks c2Env [0, 1]) ∧
    ((emitBus c2Env [0, 1]).filter isInvokedEv = [0, 1].map BusEv.invoked ∧
      BusEv.errorLogged 0 ∈ emitBus c2Env [0, 1]) ∧
    keyListenerHandler (some "menu") "menu" "Enter" (Except.error "boom") "Enter"
      = Except.error "boom" :=
  ⟨⟨(c2_amended.1 c2Env [0, 1]).1,
      (c2_amended.1 c2Env [0, 1]).2 0 (by decide) "boom" rfl⟩,
    ⟨(c2_amended.2.1 c2Env [0, 1]).1,
      (c2_amended.2.1 c2Env [0, 1]).2 0 (by decide) "boom" rfl⟩,
    c2_amended.2.2 "menu" "Enter" (Except.error "boom")⟩

/-! ### C5: entry-version cancellation of prefab instantiation -/

theorem beginExits_of_managed_nil :
    ∀ (k : Nat) (w : PrefabWorld), w.managed = [] →
      beginExits k w
        = { entryVersion := w.entryVersion + k, scene := w.scene, managed := [],
            listenersAttached := w.listenersAttached } := by
  intro k
  induction k with
  | zero =>
    intro w hw
    obtain ⟨v, sc, mg, la⟩ := w
    simp at hw
    subst hw
    rfl
  | succ k ih =>
    intro w hw
    rw [beginExits]
    have hbe : beginExit w
        = { entryVersion := w.entryVersion + 1, scene := w.scene, managed := [],
            listenersAttached := w.listenersAttached } := by
      rw [beginExit, hw]
      simp
    rw [hbe, ih _ rfl]
    simp
    omega

/-- C5.  If, while the combined enter hook of a `withPrefabs` state is
suspended at its instantiation await, the state's composed exit hook begins
(each beginning bumps the entry version), then every instance the hook had
instantiated is destroyed (none of the fresh instances remains in the scene),
none is added to the managed list, and the final listener-attachment step is
skipped; in general, listeners are attached exactly when the captured entry
version still equals the live version when the hooks finish (no exit began). -/
theorem c5_entry_version_cancellation :
    (∀ (prefabs : List Nat) (k : Nat) (w : PrefabWorld),
        1 ≤ k → (∀ i ∈ prefabs, i ∉ w.scene) → w.listenersAttached = false →
        (∀ i ∈ prefabs, i ∉ (runEnterWithPrefabs prefabs k w).scene) ∧
        (runEnterWithPrefabs prefabs k w).managed = [] ∧
        (runEnterWithPrefabs prefabs k w).listenersAttached = false) ∧
    (∀ (prefabs : List Nat) (k : Nat) (w : PrefabWorld),
        w.listenersAttached = false →
        ((runEnterWithPrefabs prefabs k w).listenersAttached = true ↔ k = 0)) := by
  constructor
  · intro prefabs k w hk _hfresh hla
    have hk0 : w.entryVersion ≠ w.entryVersion + k := by omega
    rw [runEnterWithPrefabs]
    rw [beginExits_of_managed_nil k { w with managed := [], scene := w.scene ++ prefabs }
      rfl]
    simp only [if_neg hk0]
    refine ⟨?_, trivial, hla⟩
    intro i hi
    intro hmem
    rw [List.mem_filter] at hmem
    have := hmem.2
    simp [hi] at this
  · intro prefabs k w hla
    rw [runEnterWithPrefabs]
    rw [beginExits_of_managed_nil k { w with managed := [], scene := w.scene ++ prefabs }
      rfl]
    by_cases hk : k = 0
    · subst hk
      simp
    · have hk0 : w.entryVersion ≠ w.entryVersion + k := by omega
      simp only [if_neg hk0]
      simp [hla, hk]

/-- C5 witness.  One concurrent exit during the await: both fresh
instances are destroyed, nothing is managed, listeners are not attached; and
the attach flag tracks `k = 0`. -/
theorem c5_entry_version_cancellation_witness :
    ((∀ i ∈ [1, 2], i ∉ (runEnterWithPrefabs [1, 2] 1 {}).scene) ∧
      (runEnterWithPrefabs [1, 2] 1 {}).managed = [] ∧
      (runEnterWithPrefabs [1, 2] 1 {}).listenersAttached = false) ∧
    ((runEnterWithPrefabs [1, 2] 0 {}).listenersAttached = true ↔ (0 : Nat) = 0) :=
  ⟨c5_entry_version_cancellation.1 [1, 2] 1 {} (by decide) (by decide) rfl,
    c5_entry_version_cancellation.2 [1, 2] 0 {} rfl⟩

end Focus
